import Mathlib

/-!
Shallow embedding of the albert snippets plugin (src/src/plugin.cpp,
src/src/filenamedialog.cpp) and proofs about it.

Strings are modelled as `List Char` (one element per UTF-16 code unit of the
original `QString`; the ellipsis is a single code unit).  The snippet
directory is modelled as an association list from file name to file content;
a file whose content is `none` is present in the directory listing but
unreadable (its `QFile::open` fails).
-/

namespace Snippets

/-- Whitespace as recognised by `QChar::isSpace`, restricted to the ASCII
range (space, tab, line feed, vertical tab, form feed, carriage return). -/
def isSpace (c : Char) : Bool :=
  c = ' ' || c = '\t' || c = '\n' || c = '\x0B' || c = '\x0C' || c = '\r'

/-- Word splitter underlying `QString::simplified`: accumulates the current
word (reversed) and emits it when whitespace or the end of input is hit. -/
def wordsAux : List Char → List Char → List (List Char)
  | [], [] => []
  | [], w => [w.reverse]
  | c :: cs, w =>
    if isSpace c then
      if w = [] then wordsAux cs [] else w.reverse :: wordsAux cs []
    else wordsAux cs (c :: w)

/-- Model of `QString::simplified`: trims leading/trailing whitespace and
collapses each internal run of whitespace to a single space. -/
def simplified (cs : List Char) : List Char :=
  (List.intersperse [' '] (wordsAux cs [])).flatten

/-- Constant `preview_max_size` from src/src/plugin.cpp line 21. -/
def preview_max_size : Nat := 100

/-- The single ellipsis character U+2026 appearing in the truncation marker. -/
def ellipsis : Char := '…'

/-- Preview computation of `SnippetItem::SnippetItem`
(src/src/plugin.cpp lines 30-37): `simplified` contents, and when longer
than `preview_max_size`, the first `preview_max_size` characters followed by
the two-character marker `" …"` (a space and an ellipsis). -/
def snippetPreview (text : List Char) : List Char :=
  let p := simplified text
  if p.length > preview_max_size then p.take preview_max_size ++ [' ', ellipsis]
  else p

/-- One file of the directory enumeration: base name (file name without the
`.txt` extension) and content, `none` when reading the file fails. -/
structure DirFile where
  name : String
  content : Option (List Char)
deriving DecidableEq

/-- In-memory result of the `SnippetItem` constructor: base name, preview,
and whether the constructor logged a read-failure warning. -/
structure SnippetItem where
  file_base_name : String
  preview : List Char
  warned : Bool
deriving DecidableEq

/-- Constructor `SnippetItem::SnippetItem` (src/src/plugin.cpp lines 27-40): on a
successful read the preview is computed from the contents; on failure the
constructor logs a warning and leaves the preview empty.  In both cases an
item is constructed. -/
def mkSnippetItem (f : DirFile) : SnippetItem :=
  match f.content with
  | some text => ⟨f.name, snippetPreview text, false⟩
  | none => ⟨f.name, [], true⟩

/-- Loop body of `indexer.parallel` (src/src/plugin.cpp lines 118-128):
for each enumerated file, first check the abort flag and return the result
accumulated so far if it is set, otherwise append the item built from the
file.  The abort flag is modelled as a schedule giving its value at each
iteration. -/
def scanLoop : List SnippetItem → List DirFile → (Nat → Bool) → Nat → List SnippetItem
  | r, [], _, _ => r
  | r, f :: fs, abort, i =>
    if abort i then r else scanLoop (r ++ [mkSnippetItem f]) fs abort (i + 1)

/-- One scan job: run the loop starting from an empty accumulator. -/
def scanJob (files : List DirFile) (abort : Nat → Bool) : List SnippetItem :=
  scanLoop [] files abort 0

/-- A scan job whose abort flag is never set. -/
def completeScan (files : List DirFile) : List SnippetItem :=
  scanJob files fun _ => false

/-- Helper: the tail of `scanLoop` starting from an empty accumulator. -/
def scanGo : List DirFile → (Nat → Bool) → Nat → List SnippetItem
  | [], _, _ => []
  | f :: fs, abort, i =>
    if abort i then [] else mkSnippetItem f :: scanGo fs abort (i + 1)

/-- Marker `prefix_add` from src/src/plugin.cpp line 22: the reserved query marker. -/
def plusToken : List Char := ['+']

/-- A result item of `Plugin::rankItems`: either a real indexed snippet item
coming from the base index handler, or the synthetic "Create new snippet"
item; the latter carries the payload of its single "add" action, the text
passed to `Plugin::addSnippet`. -/
inductive ResultItem where
  | real (s : SnippetItem)
  | createNew (q : List Char)
deriving DecidableEq

/-- Whether a result item is a real indexed snippet (not the synthetic
create item). -/
def ResultItem.isReal : ResultItem → Bool
  | .real _ => true
  | .createNew _ => false

/-- One scored result, mirroring `albert::RankItem`. -/
structure RankItem where
  item : ResultItem
  score : ℚ
deriving DecidableEq

/-- Function `Plugin::rankItems` (src/src/plugin.cpp lines 153-173): the base index
results are computed by the external `IndexQueryHandler`; when the query
starts with `plusToken` a synthetic create item with score 1 is appended at
the back, its action payload being the query text after the marker. -/
def rankItems (base : List RankItem) (query : List Char) : List RankItem :=
  if plusToken.isPrefixOf query then
    base ++ [⟨ResultItem.createNew (query.drop plusToken.length), 1⟩]
  else base

/-- The snippet directory as an association list from file name to content:
first binding wins on lookup. -/
abbrev Fs := List (String × List Char)

/-- Look a file up by name. -/
def fsLookup (fs : Fs) (name : String) : Option (List Char) :=
  match fs.find? (fun p => p.1 == name) with
  | some p => some p.2
  | none => none

/-- Opening a file `WriteOnly` creates/truncates it; writing `content`
leaves exactly `content` in it. -/
def fsWrite (fs : Fs) (name : String) (content : List Char) : Fs :=
  (name, content) :: fs

/-- Remove a file from the directory. -/
def fsErase (fs : Fs) (name : String) : Fs :=
  fs.filter fun p => !(p.1 == name)

/-- The message state of `FilenameDialog::updateUI`
(src/src/filenamedialog.cpp lines 39-59). -/
inductive ValidationInfo where
  | emptyNameMsg
  | conflictMsg (name : String)
  | noMsg
deriving DecidableEq

/-- Slot `FilenameDialog::updateUI`: given the current line-edit text and whether
a snippet file of that name exists right now, produce the info message and
whether the Ok button is enabled. -/
def updateUI (text : String) (conflictNow : Bool) : ValidationInfo × Bool :=
  if text == "" then (ValidationInfo.emptyNameMsg, false)
  else if conflictNow then (ValidationInfo.conflictMsg text, false)
  else (ValidationInfo.noMsg, true)

/-- Override `FilenameDialog::accept` (src/src/filenamedialog.cpp lines 61-65): the
dialog closes with `Accepted` only when the name is non-empty and no file of
that name exists at this very moment. -/
def dialogAcceptCloses (name : String) (fileExistsNow : Bool) : Bool :=
  !(name == "") && !fileExistsNow

/-- Outcome of the `QDialog::finished` handler in `Plugin::addSnippet`. -/
structure CreateOutcome where
  fs : Fs
  accepted : Bool
  openedEditor : Bool
  criticalError : Bool
deriving DecidableEq

/-- Finished handler of `Plugin::addSnippet` (src/src/plugin.cpp lines
187-203): when the dialog was accepted, open the target file for writing
(`writable` models whether that succeeds); on success the file holds exactly
`text` (the empty text leaves the freshly created file empty and opens it in
the editor instead); on open failure a critical error is reported and
nothing is written; when the dialog was not accepted nothing happens. -/
def addSnippetFinished (text : List Char) (result_accepted : Bool)
    (filename : String) (writable : Bool) (fs : Fs) : CreateOutcome :=
  if result_accepted then
    if writable then
      if text.isEmpty then
        ⟨fsWrite fs filename [], true, true, false⟩
      else
        ⟨fsWrite fs filename text, true, false, false⟩
    else ⟨fs, true, false, true⟩
  else ⟨fs, false, false, false⟩

/-- The create operation end to end at accept time: the dialog re-checks
existence of `name ++ ".txt"` in the directory as it is *now*, and the
finished handler runs with the dialog's verdict. -/
def createSnippet (text : List Char) (name : String) (writable : Bool)
    (fs : Fs) : CreateOutcome :=
  addSnippetFinished text
    (dialogAcceptCloses name (fsLookup fs (name ++ ".txt")).isSome)
    (name ++ ".txt") writable fs

/-- Outcome of `Plugin::removeSnippet`. -/
inductive RemoveOutcome where
  | warnNoExist
  | userDeclined
  | movedToTrash
  | warnTrashFailed
deriving DecidableEq

/-- Directory plus trash location. -/
structure RemoveState where
  fs : Fs
  trash : Fs
deriving DecidableEq

/-- Method `Plugin::removeSnippet` (src/src/plugin.cpp lines 227-235): warn and do
nothing when the path does not exist; otherwise ask the user; when confirmed
move the file to trash (`trashOk` models whether `QFile::moveToTrash`
succeeds), warning on failure.  There is no branch that erases the file
permanently. -/
def removeSnippet (st : RemoveState) (file_name : String)
    (confirmed trashOk : Bool) : RemoveState × RemoveOutcome :=
  match fsLookup st.fs file_name with
  | none => (st, RemoveOutcome.warnNoExist)
  | some content =>
    if confirmed then
      if trashOk then
        (⟨fsErase st.fs file_name, (file_name, content) :: st.trash⟩,
         RemoveOutcome.movedToTrash)
      else (st, RemoveOutcome.warnTrashFailed)
    else (st, RemoveOutcome.userDeclined)

/-- Result of a clipboard action: the clipboard afterwards, whether a paste
was triggered, and whether a read-failure warning was reported. -/
structure ClipResult where
  clipboard : Option (List Char)
  pasted : Bool
  warnedRead : Bool
deriving DecidableEq

/-- Action `SnippetItem::copyToClipboard` (src/src/plugin.cpp lines 64-71): open
the snippet file as it is at invocation time; on success place its full
contents on the clipboard; on failure warn and leave the clipboard alone. -/
def copyToClipboard (fs : Fs) (path : String) (clip : Option (List Char)) :
    ClipResult :=
  match fsLookup fs path with
  | some content => ⟨some content, false, false⟩
  | none => ⟨clip, false, true⟩

/-- Action `SnippetItem::copyToClipboardAndPaste` (src/src/plugin.cpp lines
73-80): same as `copyToClipboard` but also triggers a paste on success. -/
def copyToClipboardAndPaste (fs : Fs) (path : String)
    (clip : Option (List Char)) : ClipResult :=
  match fsLookup fs path with
  | some content => ⟨some content, true, false⟩
  | none => ⟨clip, false, true⟩

theorem scanLoop_eq_append (r : List SnippetItem) (files : List DirFile)
    (abort : Nat → Bool) (i : Nat) :
    scanLoop r files abort i = r ++ scanGo files abort i := by
  induction files generalizing r i with
  | nil => simp [scanLoop, scanGo]
  | cons f fs ih =>
    simp only [scanLoop, scanGo]
    by_cases h : abort i
    · simp [h]
    · simp [h, ih, List.append_assoc]

theorem scanGo_never_abort (files : List DirFile) (abort : Nat → Bool)
    (h : ∀ i, abort i = false) (i : Nat) :
    scanGo files abort i = files.map mkSnippetItem := by
  induction files generalizing i with
  | nil => simp [scanGo]
  | cons f fs ih => simp [scanGo, h, ih]

theorem completeScan_eq_map (files : List DirFile) :
    completeScan files = files.map mkSnippetItem := by
  simp [completeScan, scanJob, scanLoop_eq_append]
  exact scanGo_never_abort files _ (fun _ => rfl) 0

theorem scanGo_isPrefix (files : List DirFile) (abort : Nat → Bool) (i : Nat) :
    scanGo files abort i <+: scanGo files (fun _ => false) i := by
  induction files generalizing i with
  | nil => simp [scanGo]
  | cons f fs ih =>
    simp only [scanGo]
    by_cases h : abort i
    · simp [h]
    · simp only [h, if_neg, Bool.false_eq_true, if_false]
      obtain ⟨t, ht⟩ := ih (i + 1)
      exact ⟨t, by simp [ht]⟩

/-- C1: the claim states preview length is at most 101 with a single
ellipsis character appended on truncation.  The code appends the
two-character marker `" …"` (space then ellipsis), giving length 102 on a
101-character normalized input, and the result differs from the
single-ellipsis form the claim describes. -/
theorem preview_truncation_cex :
    (snippetPreview (List.replicate 101 'a')).length = 102 ∧
    ¬ (snippetPreview (List.replicate 101 'a')).length ≤ 101 ∧
    snippetPreview (List.replicate 101 'a') ≠
      (simplified (List.replicate 101 'a')).take 100 ++ [ellipsis] := by
  decide

/-- C1 (amended): for every input text the preview equals the
whitespace-normalized text when that has length at most 100, and otherwise
equals its first 100 characters followed by a space and a single ellipsis
character; the preview's length is therefore at most 102. -/
theorem preview_truncation (text : List Char) :
    (snippetPreview text).length ≤ preview_max_size + 2 ∧
    ((simplified text).length ≤ preview_max_size →
      snippetPreview text = simplified text) ∧
    (preview_max_size < (simplified text).length →
      snippetPreview text =
        (simplified text).take preview_max_size ++ [' ', ellipsis]) := by
  refine ⟨?_, ?_, ?_⟩
  · unfold snippetPreview
    by_cases h : (simplified text).length > preview_max_size
    · simp only [h, if_pos, List.length_append, List.length_take]
      simp only [List.length_cons, List.length_nil]
      omega
    · simp only [h, if_neg, Bool.false_eq_true, if_false]
      omega
  · intro h
    unfold snippetPreview
    have : ¬ (simplified text).length > preview_max_size := by omega
    simp [this]
  · intro h
    unfold snippetPreview
    simp [h]

/-- C1 witness: concrete instantiation of the amended truncation law. -/
theorem preview_truncation_wit :
    (snippetPreview ('h' :: 'i' :: [])).length ≤ preview_max_size + 2 ∧
    snippetPreview ('h' :: 'i' :: []) = simplified ('h' :: 'i' :: []) :=
  ⟨(preview_truncation ('h' :: 'i' :: [])).1,
   (preview_truncation ('h' :: 'i' :: [])).2.1 (by decide)⟩

/-- C2: the claim states that a file whose read fails is skipped, so that a
completed scan has no entry for an unreadable file.  In the code the item is
constructed and appended regardless: a directory holding one unreadable file
scans to one entry (with empty preview and a logged warning), not zero. -/
theorem scan_skip_unreadable_cex :
    completeScan [⟨"a", none⟩] = [⟨"a", [], true⟩] ∧
    completeScan [⟨"a", none⟩] ≠ [] := by
  decide

/-- C2 (amended): for every file whose read fails the constructor logs a
warning but the file still yields an entry with an empty preview; a
naturally completed scan's result contains exactly one entry per enumerated
file, readable or not, in enumeration order. -/
theorem scan_unreadable_logged (files : List DirFile) :
    completeScan files = files.map mkSnippetItem ∧
    ∀ f ∈ files, f.content = none → mkSnippetItem f = ⟨f.name, [], true⟩ := by
  refine ⟨completeScan_eq_map files, ?_⟩
  intro f _ hc
  simp [mkSnippetItem, hc]

/-- C2 witness: a two-file directory, one file unreadable, scans to two
entries, the unreadable one carrying an empty preview and the warning. -/
theorem scan_unreadable_logged_wit :
    completeScan [⟨"a", none⟩, ⟨"b", some ['h', 'i']⟩] =
      ([⟨"a", none⟩, ⟨"b", some ['h', 'i']⟩] : List DirFile).map mkSnippetItem ∧
    mkSnippetItem ⟨"a", none⟩ = ⟨"a", [], true⟩ :=
  ⟨(scan_unreadable_logged [⟨"a", none⟩, ⟨"b", some ['h', 'i']⟩]).1,
   (scan_unreadable_logged [⟨"a", none⟩, ⟨"b", some ['h', 'i']⟩]).2
     ⟨"a", none⟩ (by decide) rfl⟩

theorem scanGo_setpoint (files : List DirFile) (k i : Nat) :
    scanGo files (fun j => decide (k ≤ j)) i =
      (files.take (k - i)).map mkSnippetItem := by
  induction files generalizing i with
  | nil => simp [scanGo]
  | cons f fs ih =>
    simp only [scanGo]
    by_cases h : k ≤ i
    · simp [h, Nat.sub_eq_zero_of_le h]
    · have h2 : k - i = (k - (i + 1)) + 1 := by omega
      simp [h, ih, h2]

/-- C7: for every enumeration and every point `k` at which the cancellation
flag becomes (and stays) set, the job checks the flag once per file, returns
the result accumulated over the first `k` files the moment it observes the
flag, and that partial result is a prefix, in enumeration order, of what a
complete scan would have produced. -/
theorem scan_cancel_partial (files : List DirFile) (k : Nat) :
    scanJob files (fun i => decide (k ≤ i)) =
      (files.take k).map mkSnippetItem ∧
    scanJob files (fun i => decide (k ≤ i)) <+: completeScan files := by
  have h1 : scanJob files (fun i => decide (k ≤ i)) =
      (files.take k).map mkSnippetItem := by
    simp only [scanJob, scanLoop_eq_append, List.nil_append]
    simpa using scanGo_setpoint files k 0
  refine ⟨h1, ?_⟩
  rw [h1, completeScan_eq_map]
  have hp := List.take_prefix k (files.map mkSnippetItem)
  simpa [List.map_take] using hp

/-- C8: two scans whose cancellation flags never fire are both the full map
over the same enumeration, hence equal as lists, and in particular their
entry sets coincide. -/
theorem rescan_idempotent (files : List DirFile) (a1 a2 : Nat → Bool)
    (h1 : ∀ i, a1 i = false) (h2 : ∀ i, a2 i = false) :
    scanJob files a1 = scanJob files a2 := by
  simp only [scanJob, scanLoop_eq_append, List.nil_append]
  rw [scanGo_never_abort files a1 h1 0, scanGo_never_abort files a2 h2 0]

/-- C8 witness: two never-cancelled scans over a concrete directory agree. -/
theorem rescan_idempotent_wit :
    scanJob [⟨"a", some ['x']⟩] (fun _ => false) =
      scanJob [⟨"a", some ['x']⟩] (fun _ => false) :=
  rescan_idempotent [⟨"a", some ['x']⟩] (fun _ => false) (fun _ => false)
    (fun _ => rfl) (fun _ => rfl)

theorem getLast?_append_singleton (l : List RankItem) (a : RankItem) :
    (l ++ [a]).getLast? = some a := by
  rw [List.getLast?_append_cons]
  rfl

/-- C3: the claim states the synthetic create result's score is strictly
above every real match and that it is the first element of the returned
sequence.  The code appends it at the back of the base results with the
fixed score 1, a value the external match contract also allows for a real
match: with one real result of score 1, the head of the returned sequence is
the real result and the synthetic one is last, with an equal, not strictly
greater, score. -/
theorem rank_plus_first_cex :
    (rankItems [⟨ResultItem.real ⟨"a", [], false⟩, 1⟩] ['+', 'x']).head? =
      some ⟨ResultItem.real ⟨"a", [], false⟩, 1⟩ ∧
    (rankItems [⟨ResultItem.real ⟨"a", [], false⟩, 1⟩] ['+', 'x']).getLast? =
      some ⟨ResultItem.createNew ['x'], 1⟩ := by
  constructor <;> rfl

/-- C3 (amended): for every query starting with the reserved marker and
every base result list coming from the index (all real), `rankItems` returns
the base results with exactly one synthetic create result appended at the
back, carrying the fixed score 1; ordering by score is left to the caller. -/
theorem rank_plus_appends_create (base : List RankItem) (query : List Char)
    (hq : plusToken.isPrefixOf query = true)
    (hbase : ∀ r ∈ base, r.item.isReal = true) :
    rankItems base query =
      base ++ [⟨ResultItem.createNew (query.drop 1), 1⟩] ∧
    (rankItems base query).countP (fun r => !r.item.isReal) = 1 ∧
    (rankItems base query).getLast? =
      some ⟨ResultItem.createNew (query.drop 1), 1⟩ := by
  have he : rankItems base query =
      base ++ [⟨ResultItem.createNew (query.drop 1), 1⟩] := by
    unfold rankItems
    rw [if_pos hq]
    rfl
  refine ⟨he, ?_, ?_⟩
  · have hz : base.countP (fun r => !r.item.isReal) = 0 := by
      rw [List.countP_eq_zero]
      intro r hr
      rw [hbase r hr]
      decide
    rw [he, List.countP_append, hz]
    rfl
  · rw [he]
    exact getLast?_append_singleton base _

/-- C3 witness: one base result of score one half plus the query `"+x"`. -/
theorem rank_plus_appends_create_wit :
    rankItems [⟨ResultItem.real ⟨"a", [], false⟩, 1/2⟩] ['+', 'x'] =
      [⟨ResultItem.real ⟨"a", [], false⟩, 1/2⟩] ++
        [⟨ResultItem.createNew ['x'], 1⟩] ∧
    (rankItems [⟨ResultItem.real ⟨"a", [], false⟩, 1/2⟩]
        ['+', 'x']).countP (fun r => !r.item.isReal) = 1 ∧
    (rankItems [⟨ResultItem.real ⟨"a", [], false⟩, 1/2⟩] ['+', 'x']).getLast? =
      some ⟨ResultItem.createNew ['x'], 1⟩ :=
  rank_plus_appends_create [⟨ResultItem.real ⟨"a", [], false⟩, 1/2⟩]
    ['+', 'x'] (by decide) (by decide)

theorem fsLookup_write_self (fs : Fs) (name : String) (c : List Char) :
    fsLookup (fsWrite fs name c) name = some c := by
  simp [fsLookup, fsWrite, List.find?]

theorem addSnippetFinished_success_fs (text : List Char) (filename : String)
    (fs : Fs) :
    (addSnippetFinished text true filename true fs).fs =
      fsWrite fs filename text := by
  unfold addSnippetFinished
  by_cases h : text.isEmpty
  · rw [List.isEmpty_iff] at h
    simp [h]
  · simp [h]

/-- C4: for every query of the form marker-plus-remainder, the synthetic
create result appended by `rankItems` carries exactly the remainder as its
action payload, and when the action runs and the dialog is accepted with a
writable target, the created file contains exactly that remainder. -/
theorem create_action_payload (base : List RankItem) (query : List Char)
    (hq : plusToken.isPrefixOf query = true) (filename : String) (fs : Fs) :
    (rankItems base query).getLast? =
      some ⟨ResultItem.createNew (query.drop 1), 1⟩ ∧
    (addSnippetFinished (query.drop 1) true filename true fs).fs =
      fsWrite fs filename (query.drop 1) ∧
    fsLookup (addSnippetFinished (query.drop 1) true filename true fs).fs
      filename = some (query.drop 1) := by
  have he : rankItems base query =
      base ++ [⟨ResultItem.createNew (query.drop 1), 1⟩] := by
    unfold rankItems
    rw [if_pos hq]
    rfl
  have hs := addSnippetFinished_success_fs (query.drop 1) filename fs
  refine ⟨?_, hs, ?_⟩
  · rw [he]
    exact getLast?_append_singleton base _
  · rw [hs]
    exact fsLookup_write_self fs filename _

/-- C4 witness: Scenario B, the query `"+hello world"`. -/
theorem create_action_payload_wit :
    (rankItems [] "+hello world".toList).getLast? =
      some ⟨ResultItem.createNew ("+hello world".toList.drop 1), 1⟩ ∧
    (addSnippetFinished ("+hello world".toList.drop 1) true "hello world.txt"
        true []).fs =
      fsWrite [] "hello world.txt" ("+hello world".toList.drop 1) ∧
    fsLookup (addSnippetFinished ("+hello world".toList.drop 1) true
        "hello world.txt" true []).fs "hello world.txt" =
      some ("+hello world".toList.drop 1) :=
  create_action_payload [] "+hello world".toList (by decide)
    "hello world.txt" []

/-- C5: when a snippet file of the proposed name exists at accept time, the
dialog's `accept` re-checks existence and refuses to close, so the finished
handler never sees `Accepted` and nothing is written; the earlier
`updateUI` validation (which may have passed against an older directory
state) does not bypass this, and a conflict at validation time surfaces the
name-conflict message with the Ok button disabled. -/
theorem create_conflict_no_write (text : List Char) (name : String)
    (writable : Bool) (fs0 fs : Fs)
    (hvalid : (updateUI name (fsLookup fs0 (name ++ ".txt")).isSome).2 = true)
    (hex : (fsLookup fs (name ++ ".txt")).isSome = true) :
    createSnippet text name writable fs = ⟨fs, false, false, false⟩ ∧
    updateUI name true = (ValidationInfo.conflictMsg name, false) := by
  have hne : (name == "") = false := by
    rcases Bool.eq_false_or_eq_true (name == "") with h | h
    · rw [updateUI, if_pos h] at hvalid
      simp at hvalid
    · exact h
  constructor
  · unfold createSnippet dialogAcceptCloses
    rw [hex, hne]
    rfl
  · rw [updateUI, if_neg, if_pos rfl]
    rw [hne]
    simp

/-- C5 witness: Scenario C, creating `"todo"` while `todo.txt` exists. -/
theorem create_conflict_no_write_wit :
    createSnippet [] "todo" true [("todo.txt", [])] =
      ⟨[("todo.txt", [])], false, false, false⟩ ∧
    updateUI "todo" true = (ValidationInfo.conflictMsg "todo", false) :=
  create_conflict_no_write [] "todo" true [] [("todo.txt", [])]
    (by decide) (by decide)

theorem fsLookup_cons_self (fs : Fs) (name : String) (c : List Char) :
    fsLookup ((name, c) :: fs) name = some c := by
  simp [fsLookup, List.find?]

/-- C6: removing an absent file warns and changes nothing; removing a
present file requires confirmation, then moves the file to the trash, and a
trash failure is reported as a warning with the state unchanged; in every
case the file's content survives, in the directory or in the trash — there
is no permanent-deletion fallback. -/
theorem remove_snippet_safe (st : RemoveState) (file_name : String)
    (confirmed trashOk : Bool) :
    (fsLookup st.fs file_name = none →
      removeSnippet st file_name confirmed trashOk =
        (st, RemoveOutcome.warnNoExist)) ∧
    (∀ c, fsLookup st.fs file_name = some c →
      (confirmed = false →
        removeSnippet st file_name confirmed trashOk =
          (st, RemoveOutcome.userDeclined)) ∧
      (confirmed = true → trashOk = true →
        removeSnippet st file_name confirmed trashOk =
          (⟨fsErase st.fs file_name, (file_name, c) :: st.trash⟩,
           RemoveOutcome.movedToTrash)) ∧
      (confirmed = true → trashOk = false →
        removeSnippet st file_name confirmed trashOk =
          (st, RemoveOutcome.warnTrashFailed)) ∧
      (fsLookup (removeSnippet st file_name confirmed trashOk).1.fs
          file_name = some c ∨
       fsLookup (removeSnippet st file_name confirmed trashOk).1.trash
          file_name = some c)) := by
  constructor
  · intro h
    unfold removeSnippet
    rw [h]
  · intro c hc
    refine ⟨?_, ?_, ?_, ?_⟩
    · intro h
      unfold removeSnippet
      rw [hc, h]
      rfl
    · intro h1 h2
      unfold removeSnippet
      rw [hc, h1, h2]
      rfl
    · intro h1 h2
      unfold removeSnippet
      rw [hc, h1, h2]
      rfl
    · unfold removeSnippet
      rw [hc]
      cases confirmed with
      | false => exact Or.inl hc
      | true =>
        cases trashOk with
        | false => exact Or.inl hc
        | true => exact Or.inr (fsLookup_cons_self st.trash file_name c)

/-- C6 witness: confirmed removal of an existing file moves it to trash. -/
theorem remove_snippet_safe_wit :
    removeSnippet ⟨[("a.txt", ['x'])], []⟩ "a.txt" true true =
      (⟨fsErase [("a.txt", ['x'])] "a.txt", ("a.txt", ['x']) :: []⟩,
       RemoveOutcome.movedToTrash) :=
  ((remove_snippet_safe ⟨[("a.txt", ['x'])], []⟩ "a.txt" true true).2
    ['x'] (by decide)).2.1 rfl rfl

/-- C9: the copy and copy-and-paste actions read the snippet file as it is
at the moment the action runs: on success the clipboard receives the file's
full, unmodified contents (not the normalized, truncated preview stored in
the entry); on failure a warning is reported and the clipboard keeps its
previous value. -/
theorem clipboard_fresh_read (fs : Fs) (path : String)
    (clip : Option (List Char)) :
    (∀ c, fsLookup fs path = some c →
      copyToClipboard fs path clip = ⟨some c, false, false⟩ ∧
      copyToClipboardAndPaste fs path clip = ⟨some c, true, false⟩) ∧
    (fsLookup fs path = none →
      copyToClipboard fs path clip = ⟨clip, false, true⟩ ∧
      copyToClipboardAndPaste fs path clip = ⟨clip, false, true⟩) := by
  constructor
  · intro c hc
    constructor
    · unfold copyToClipboard
      rw [hc]
    · unfold copyToClipboardAndPaste
      rw [hc]
  · intro h
    constructor
    · unfold copyToClipboard
      rw [h]
    · unfold copyToClipboardAndPaste
      rw [h]

/-- C9 witness: the clipboard receives the raw contents, which differ from
the stored preview on a file with internal blank lines. -/
theorem clipboard_fresh_read_wit :
    copyToClipboard [("s.txt", "a\n\nb".toList)] "s.txt" (some ['z']) =
      ⟨some "a\n\nb".toList, false, false⟩ ∧
    copyToClipboardAndPaste [("s.txt", "a\n\nb".toList)] "s.txt"
      (some ['z']) = ⟨some "a\n\nb".toList, true, false⟩ ∧
    "a\n\nb".toList ≠ snippetPreview "a\n\nb".toList :=
  ⟨((clipboard_fresh_read [("s.txt", "a\n\nb".toList)] "s.txt"
      (some ['z'])).1 ("a\n\nb".toList) (by decide)).1,
   ((clipboard_fresh_read [("s.txt", "a\n\nb".toList)] "s.txt"
      (some ['z'])).1 ("a\n\nb".toList) (by decide)).2,
   by decide⟩

/-- C10: when the dialog finishes with any result other than `Accepted`
(in particular when the user cancels), the finished handler performs no
write: the directory is returned exactly as it was, no editor is opened and
no error is raised. -/
theorem reject_no_write (text : List Char) (filename : String)
    (writable : Bool) (fs : Fs) :
    addSnippetFinished text false filename writable fs =
      ⟨fs, false, false, false⟩ := by
  rfl

end Snippets
